import Mathlib

/-!
Verification development for the gofeedfinder repository.

The definitions below are a shallow embedding of the discovery engine in
pkg/gofeedfinder/feed_finder.go and pkg/gofeedfinder/internal (ResolveFeedURL),
together with a model of the Go standard-library collaborator net/url
(url.Parse, URL.ResolveReference, URL.String) restricted to the behavior the
engine exercises: userinfo is stored raw without the validUserinfo check,
percent-escapes are validated (a percent sign must be followed by two hex
digits) but kept undecoded, and the control-character check works on
characters rather than raw bytes.  The HTML parser (goquery) is abstracted:
ExtractFeedLinks operates on the list of link elements, in document order,
that the parser would produce, each carrying its href, title, rel and type
attributes (a missing attribute is the empty string, as in the source, which
ignores the presence flag of Attr).  HTTP transports are passed in as
explicit response values, and the line-splitting of bufio.Scanner is modelled
by taking the stream as a list of lines plus an optional read error that the
scanner reports after the last line.
-/

/-! ## Character and string utilities (strings.ToLower, Contains, Index) -/

/-- Lower-case an ASCII letter; other characters unchanged.  Models the
effect of Go strings.ToLower on the ASCII inputs the engine compares. -/
def lowerChar (c : Char) : Char :=
  if 65 ≤ c.toNat && c.toNat ≤ 90 then Char.ofNat (c.toNat + 32) else c

/-- strings.ToLower. -/
def goToLower (s : String) : String := String.mk (s.data.map lowerChar)

/-- Substring test on character lists, as strings.Contains. -/
def listContainsSub : List Char → List Char → Bool
  | [], pat => pat.isEmpty
  | c :: t, pat => pat.isPrefixOf (c :: t) || listContainsSub t pat

/-- strings.Contains. -/
def strContains (s pat : String) : Bool := listContainsSub s.data pat.data

/-- strings.Index restricted to what the model needs: position of the first
occurrence of pat in s, if any. -/
def listIndexOfSub : List Char → List Char → Option Nat
  | [], pat => if pat.isEmpty then some 0 else none
  | c :: t, pat =>
    if pat.isPrefixOf (c :: t) then some 0 else (listIndexOfSub t pat).map (· + 1)

/-- First occurrence of a single character (strings.IndexByte on ASCII). -/
def firstIndexOfChar : List Char → Char → Option Nat
  | [], _ => none
  | c :: t, ch => if c = ch then some 0 else (firstIndexOfChar t ch).map (· + 1)

/-- Last occurrence of a single character (strings.LastIndex on a
one-character separator). -/
def lastIndexOfChar : List Char → Char → Option Nat
  | [], _ => none
  | c :: t, ch =>
    match lastIndexOfChar t ch with
    | some i => some (i + 1)
    | none => if c = ch then some 0 else none

/-- net/url split(s, sep, cutc=true): the part before the first sep and the
part after it; (s, empty) when sep does not occur. -/
def splitOnceCut : List Char → Char → List Char × List Char
  | [], _ => ([], [])
  | c :: t, sep =>
    if c = sep then ([], t)
    else
      let p := splitOnceCut t sep
      (c :: p.1, p.2)

/-! ## Model of the net/url collaborator -/

def isCTL (c : Char) : Bool := c.toNat < 32 || c.toNat == 127
def containsCTL (s : List Char) : Bool := s.any isCTL

def isAlphaChar (c : Char) : Bool :=
  (97 ≤ c.toNat && c.toNat ≤ 122) || (65 ≤ c.toNat && c.toNat ≤ 90)
def isDigitChar (c : Char) : Bool := 48 ≤ c.toNat && c.toNat ≤ 57
def isSchemeChar (c : Char) : Bool :=
  isAlphaChar c || isDigitChar c || c == '+' || c == '-' || c == '.'
def isHexChar (c : Char) : Bool :=
  isDigitChar c || (97 ≤ c.toNat && c.toNat ≤ 102) || (65 ≤ c.toNat && c.toNat ≤ 70)

/-- Scan scheme characters until a colon; none when an invalid character or
the end of the string is reached first.  Helper for getScheme. -/
def schemeLoop : List Char → List Char → Option (List Char × List Char)
  | [], _ => none
  | c :: cs, acc =>
    if c = ':' then some (acc.reverse, cs)
    else if isSchemeChar c then schemeLoop cs (c :: acc)
    else none

/-- net/url getScheme: split a leading scheme off a raw URL. -/
def getScheme (raw : List Char) : Except String (List Char × List Char) :=
  match raw with
  | [] => .ok ([], [])
  | c :: cs =>
    if isAlphaChar c then
      match schemeLoop cs [c] with
      | some (sch, rest) => .ok (sch, rest)
      | none => .ok ([], c :: cs)
    else if c = ':' then .error "missing protocol scheme"
    else .ok ([], c :: cs)

/-- Every percent sign is followed by two hex digits (the unescape validity
check of net/url, with the decoded text kept identical to the raw text). -/
def validEscapes : List Char → Bool
  | [] => true
  | '%' :: a :: b :: t => isHexChar a && isHexChar b && validEscapes t
  | '%' :: _ => false
  | _ :: t => validEscapes t

/-- net/url validOptionalPort. -/
def validOptionalPort (port : List Char) : Bool :=
  match port with
  | [] => true
  | c :: t => c = ':' && t.all isDigitChar

/-- net/url parseHost (bracket form requires a closing bracket and a numeric
port; zone and host-specific escaping subtleties are out of model scope). -/
def parseHost (host : List Char) : Except String (List Char) :=
  if ['['].isPrefixOf host then
    match lastIndexOfChar host ']' with
    | none => .error "missing right bracket in host"
    | some i =>
      if !validOptionalPort (host.drop (i + 1)) then .error "invalid port after host"
      else if validEscapes host then .ok host else .error "invalid URL escape"
  else
    match lastIndexOfChar host ':' with
    | some i =>
      if !validOptionalPort (host.drop i) then .error "invalid port after host"
      else if validEscapes host then .ok host else .error "invalid URL escape"
    | none => if validEscapes host then .ok host else .error "invalid URL escape"

/-- net/url parseAuthority: optional userinfo before the last at sign, then
the host. -/
def parseAuthority (authority : List Char) : Except String (Option (List Char) × List Char) :=
  match lastIndexOfChar authority '@' with
  | none =>
    match parseHost authority with
    | .error e => .error e
    | .ok h => .ok (none, h)
  | some i =>
    match parseHost (authority.drop (i + 1)) with
    | .error e => .error e
    | .ok h => .ok (some (authority.take i), h)

/-- The slice of net/url URL that the engine exercises.  The field opq is the
Opaque field of the Go struct. -/
structure GoURL where
  scheme : List Char := []
  opq : List Char := []
  user : Option (List Char) := none
  host : List Char := []
  path : List Char := []
  omitHost : Bool := false
  forceQuery : Bool := false
  rawQuery : List Char := []
  fragment : List Char := []
  deriving Repr, DecidableEq

/-- Authority-and-path tail of net/url parse, after scheme and query have
been split off. -/
def parseAuthorityPath (scheme rest : List Char) (forceQuery : Bool) (rawQuery : List Char) :
    Except String GoURL :=
  if (decide (scheme ≠ []) || !(['/', '/', '/'].isPrefixOf rest)) && ['/', '/'].isPrefixOf rest then
    let afterSlashes := rest.drop 2
    let split :=
      match firstIndexOfChar afterSlashes '/' with
      | some i => (afterSlashes.take i, afterSlashes.drop i)
      | none => (afterSlashes, [])
    match parseAuthority split.1 with
    | .error e => .error e
    | .ok uh =>
      if validEscapes split.2 then
        .ok { scheme := scheme, user := uh.1, host := uh.2, path := split.2,
              forceQuery := forceQuery, rawQuery := rawQuery }
      else .error "invalid URL escape"
  else
    let omitHost := decide (scheme ≠ []) && ['/'].isPrefixOf rest
    if validEscapes rest then
      .ok { scheme := scheme, path := rest, omitHost := omitHost,
            forceQuery := forceQuery, rawQuery := rawQuery }
    else .error "invalid URL escape"

/-- net/url parse(rawURL, viaRequest=false), without the fragment (the
fragment has been split off by urlParse). -/
def urlParseInner (rawURL : List Char) : Except String GoURL :=
  if containsCTL rawURL then .error "invalid control character in URL"
  else if rawURL = ['*'] then .ok { path := ['*'] }
  else
    match getScheme rawURL with
    | .error e => .error e
    | .ok sr =>
      let scheme := sr.1.map lowerChar
      let rest0 := sr.2
      let q :=
        if ['?'].isSuffixOf rest0 && !(rest0.dropLast.contains '?') then
          (rest0.dropLast, true, ([] : List Char))
        else
          let p := splitOnceCut rest0 '?'
          (p.1, false, p.2)
      let rest := q.1
      if !(['/'].isPrefixOf rest) && scheme = [] then
        if (splitOnceCut rest '/').1.contains ':' then
          .error "first path segment in URL cannot contain colon"
        else parseAuthorityPath scheme rest q.2.1 q.2.2
      else if !(['/'].isPrefixOf rest) && scheme ≠ [] then
        .ok { scheme := scheme, opq := rest, forceQuery := q.2.1, rawQuery := q.2.2 }
      else parseAuthorityPath scheme rest q.2.1 q.2.2

/-- net/url Parse: split off the fragment, parse the rest, then attach the
fragment. -/
def urlParse (rawURL : List Char) : Except String GoURL :=
  let p := splitOnceCut rawURL '#'
  match urlParseInner p.1 with
  | .error e => .error e
  | .ok url =>
    if p.2.isEmpty then .ok url
    else if validEscapes p.2 then .ok { url with fragment := p.2 }
    else .error "invalid URL escape"

/-- base[: last slash + 1], used by resolvePath for a relative reference. -/
def takeUpToLastSlash (base : List Char) : List Char :=
  match lastIndexOfChar base '/' with
  | none => []
  | some i => base.take (i + 1)

/-- Split on a separator character, keeping empty segments, as the
strings.Cut loop of net/url resolvePath enumerates them. -/
def splitOnChar : List Char → Char → List (List Char)
  | [], _ => [[]]
  | c :: t, ch =>
    if c = ch then [] :: splitOnChar t ch
    else
      match splitOnChar t ch with
      | [] => [[c]]
      | seg :: rest => (c :: seg) :: rest

/-- One step of the segment-cleaning loop of net/url resolvePath.  The state
is the pair (first, dst) of the Go code, dst including its leading slash. -/
def segStep (st : Bool × List Char) (elem : List Char) : Bool × List Char :=
  if elem = ['.'] then (false, st.2)
  else if elem = ['.', '.'] then
    let str := st.2.drop 1
    match lastIndexOfChar str '/' with
    | none => (true, ['/'])
    | some idx => (st.1, '/' :: str.take idx)
  else
    (false, st.2 ++ (if st.1 then [] else ['/']) ++ elem)

/-- net/url resolvePath. -/
def resolvePath (base ref : List Char) : List Char :=
  let full :=
    if ref = [] then base
    else if ref.head? ≠ some '/' then takeUpToLastSlash base ++ ref
    else ref
  if full = [] then []
  else
    let elems := splitOnChar full '/'
    let dst := (elems.foldl segStep (true, ['/'])).2
    let lastElem := (elems.getLast?).getD []
    let dst2 := if lastElem = ['.'] || lastElem = ['.', '.'] then dst ++ ['/'] else dst
    match dst2 with
    | c :: c2 :: rest => if c2 = '/' then c2 :: rest else c :: c2 :: rest
    | other => other

/-- net/url URL.ResolveReference (EscapedPath coincides with path in this
model, which keeps escapes undecoded). -/
def resolveReference (u ref : GoURL) : GoURL :=
  let url0 := if ref.scheme = [] then { ref with scheme := u.scheme } else ref
  if ref.scheme ≠ [] ∨ ref.host ≠ [] ∨ ref.user ≠ none then
    { url0 with path := resolvePath ref.path [] }
  else if ref.opq ≠ [] then
    { url0 with user := none, host := [], path := [] }
  else
    let url1 :=
      if ref.path = [] ∧ ¬ref.forceQuery ∧ ref.rawQuery = [] then
        { url0 with rawQuery := u.rawQuery,
                    fragment := if ref.fragment = [] then u.fragment else ref.fragment }
      else url0
    { url1 with host := u.host, user := u.user, path := resolvePath u.path ref.path }

/-- net/url URL.String. -/
def urlString (u : GoURL) : String :=
  let buf1 := if u.scheme ≠ [] then u.scheme ++ [':'] else []
  let buf2 :=
    if u.opq ≠ [] then buf1 ++ u.opq
    else
      let auth :=
        if u.scheme ≠ [] ∨ u.host ≠ [] ∨ u.user ≠ none then
          if u.omitHost && decide (u.host = []) && decide (u.user = none) then []
          else
            (if u.host ≠ [] ∨ u.path ≠ [] ∨ u.user ≠ none then ['/', '/'] else [])
            ++ (match u.user with | some ui => ui ++ ['@'] | none => [])
            ++ u.host
        else []
      let buf3 := buf1 ++ auth
      let buf4 := buf3 ++ (if decide (u.path ≠ []) && decide (u.path.head? ≠ some '/') && decide (u.host ≠ []) then ['/'] else [])
      let buf5 :=
        if buf4 = [] then
          if (splitOnceCut u.path '/').1.contains ':' then buf4 ++ ['.', '/'] else buf4
        else buf4
      buf5 ++ u.path
  let buf6 := buf2 ++ (if u.forceQuery || decide (u.rawQuery ≠ []) then ['?'] ++ u.rawQuery else [])
  let buf7 := buf6 ++ (if u.fragment ≠ [] then ['#'] ++ u.fragment else [])
  String.mk buf7

/-! ## URL Resolver (pkg/gofeedfinder/internal ResolveFeedURL) -/

/-- The fast-path test of ResolveFeedURL: href already begins with an http or
https scheme prefix. -/
def startsWithHTTP (s : String) : Bool :=
  "http://".data.isPrefixOf s.data || "https://".data.isPrefixOf s.data

/-- internal.ResolveFeedURL: resolve a possibly relative feed URL against a
base URL; on any parse failure return href unchanged. -/
def ResolveFeedURL (href baseURL : String) : String :=
  if startsWithHTTP href then href
  else
    match urlParse baseURL.data with
    | .error _ => href
    | .ok base =>
      match urlParse href.data with
      | .error _ => href
      | .ok u => urlString (resolveReference base u)

/-- A URL string is absolute when it carries a scheme, that is, getScheme
splits a nonempty scheme off it. -/
def hasSchemeL (s : List Char) : Bool :=
  match getScheme s with
  | .ok p => !p.1.isEmpty
  | .error _ => false

/-- Absoluteness predicate for produced URL strings. -/
def hasScheme (s : String) : Bool := hasSchemeL s.data

example : ResolveFeedURL "/feed.xml" "https://example.com" = "https://example.com/feed.xml" := by
  decide

example : ResolveFeedURL "feed.xml" "https://example.com/blog/" = "https://example.com/blog/feed.xml" := by
  decide

example : ResolveFeedURL "/feed.xml" "://invalid-url" = "/feed.xml" := by decide

example : ResolveFeedURL "://invalid-url" "https://example.com" = "://invalid-url" := by decide

example : ResolveFeedURL "/feed" "" = "/feed" := by decide

example : hasScheme "/feed" = false := by decide

/-! ## Data model (feed_finder.go) -/

/-- MIME type constants of feed_finder.go. -/
def MimeTypeRSS : String := "application/rss+xml"
def MimeTypeAtom : String := "application/atom+xml"
def MimeTypeJSON : String := "application/json"
def MimeTypeFeedJSON : String := "application/feed+json"

/-- MaxHeadSize: the byte cap of the limited reader in front of the head
extractor.  The line-oriented model takes streams already cut at the cap, so
the constant is recorded but not applied to the line list. -/
def MaxHeadSize : Nat := 1024 * 1024

/-- A discovered feed.  FeedType is the Type field of the Go struct. -/
structure Feed where
  URL : String
  Title : String
  FeedType : String
  deriving Repr, DecidableEq

/-- Discovery options. -/
structure Options where
  ScanCommonPaths : Bool
  MaxConcurrency : Int
  deriving Repr, DecidableEq

/-- The Go error values the engine creates or passes through, identified by
their dynamic type: errorString covers errors.New and fmt.Errorf without a
wrap verb, wrapError covers fmt.Errorf with a wrap verb, urlError is the
net/http and net/url transport error type. -/
inductive GoError where
  | errorString (msg : String)
  | wrapError (msg : String) (wrapped : GoError)
  | urlError (op target : String) (cause : GoError)
  deriving Repr, DecidableEq

/-- True exactly for the plain untyped error value created by errors.New or
by fmt.Errorf without a wrap verb. -/
def GoError.isErrorString : GoError → Bool
  | .errorString _ => true
  | _ => false

/-- The message carried by an error value (the Error method). -/
def GoError.msg : GoError → String
  | .errorString s => s
  | .wrapError s _ => s
  | .urlError op target cause => op ++ " " ++ target ++ ": " ++ cause.msg

/-! ## Link Classifier (ExtractFeedLinks) -/

/-- One link element of the parsed document, carrying the four attributes the
classifier reads; a missing attribute is the empty string. -/
structure LinkElem where
  href : String
  title : String
  rel : String
  linkType : String
  deriving Repr, DecidableEq

/-- Body of the Each closure in ExtractFeedLinks: decide whether one link
element yields a feed candidate. -/
def classifyLink (url : String) (s : LinkElem) : Option Feed :=
  let href := s.href
  let title := s.title
  let rel := goToLower s.rel
  let linkType := goToLower s.linkType
  if rel = "alternate" ∧ href ≠ "" then
    let feedType :=
      if linkType = MimeTypeRSS then "rss"
      else if linkType = MimeTypeAtom then "atom"
      else if linkType = MimeTypeJSON ∨ linkType = MimeTypeFeedJSON then "json"
      else ""
    if feedType ≠ "" then some ⟨ResolveFeedURL href url, title, feedType⟩ else none
  else none

/-- ExtractFeedLinks over the list of link elements the markup parser yields
in document order.  Parse failure of the fragment is the empty element list
(goquery returns an empty selection; the function never errors). -/
def ExtractFeedLinks (links : List LinkElem) (url : String) : List Feed :=
  links.filterMap (classifyLink url)

/-! ## Head Extractor (extractHeadSection) -/

/-- How the scan loop of extractHeadSection ended: broke is the break
statement (the accumulated buffer is returned after the scanner error
check, which is nil at that point), early is the in-head body abort that
returns the empty string immediately, exhausted means the scanner delivered
every line. -/
inductive HeadLoopResult where
  | broke (buf : String)
  | early
  | exhausted (buf : String)
  deriving Repr, DecidableEq

/-- The scan loop of extractHeadSection, one constructor call per line. -/
def headLoop : List String → Bool → Bool → String → HeadLoopResult
  | [], _, _, buf => .exhausted buf
  | line :: rest, inHead, headStartFound, buf =>
    let lineLower := goToLower line
    let hsf1 := headStartFound || strContains lineLower "<head"
    let inHead1 := inHead || (!headStartFound && strContains lineLower "<head")
    if !hsf1 && strContains lineLower "<body" then .broke buf
    else
      let buf1 := if inHead1 then buf ++ line ++ "\n" else buf
      if inHead1 && strContains lineLower "</head>" then .broke buf1
      else if inHead1 && strContains lineLower "<body" && !strContains lineLower "</head>" then .early
      else headLoop rest inHead1 hsf1 buf1

/-- extractHeadSection over the lines bufio.Scanner delivers; readErr is the
read failure the scanner reports after its last line, if any (the scanner
error check only runs when the loop was not left early). -/
def extractHeadSection (lines : List String) (readErr : Option GoError) : Except GoError String :=
  match headLoop lines false false "" with
  | .broke buf => .ok buf
  | .early => .ok ""
  | .exhausted buf =>
    match readErr with
    | some e => .error e
    | none => .ok buf

/-! ## Stream classifier (ExtractFeedLinksFromStream) -/

/-- ExtractFeedLinksFromStream: isolate the head fragment, then classify it.
The markup parser is the explicit parseLinks argument turning the head
fragment into its link elements. -/
def ExtractFeedLinksFromStream (lines : List String) (readErr : Option GoError)
    (parseLinks : String → List LinkElem) (baseURL : String) : Except GoError (List Feed) :=
  match extractHeadSection lines readErr with
  | .error e => .error (.wrapError ("failed to extract head section: " ++ e.msg) e)
  | .ok headHTML =>
    if headHTML.length = 0 then .ok []
    else .ok (ExtractFeedLinks (parseLinks headHTML) baseURL)

/-! ## Common-Path Prober (checkFeedURL, validateFeedContent, ScanCommonFeedPaths) -/

/-- An HTTP response as the prober observes it: status, the Content-Type
header, and the body (of which validateFeedContent reads the first KiB). -/
structure HTTPResponse where
  statusCode : Int
  contentType : String
  body : String
  deriving Repr, DecidableEq

/-- validateFeedContent: GET the URL and sniff the first KiB of the body.
The GET outcome is the explicit get argument. -/
def validateFeedContent (url : String) (get : Except GoError HTTPResponse) :
    Except GoError Feed :=
  match get with
  | .error e => .error e
  | .ok resp =>
    if resp.statusCode < 200 ∨ resp.statusCode ≥ 300 then
      .error (.errorString ("GET request failed with status " ++ toString resp.statusCode))
    else
      let content := String.mk ((resp.body.data.take 1024).map lowerChar)
      if strContains content "<rss" || strContains content "<rdf:rdf" then
        .ok ⟨url, "", "rss"⟩
      else if strContains content "<feed" && strContains content "xmlns" then
        .ok ⟨url, "", "atom"⟩
      else if strContains content "\"version\"" &&
          (strContains content "\"title\"" || strContains content "\"items\"") then
        .ok ⟨url, "", "json"⟩
      else .error (.errorString "content does not appear to be a valid feed")

/-- checkFeedURL: HEAD probe on the URL, classify by Content-Type, fall back
to the content sniff when the declared type is inconclusive.  The HEAD and
GET outcomes are the explicit head and get arguments. -/
def checkFeedURL (url : String) (head : Except GoError HTTPResponse)
    (get : Except GoError HTTPResponse) : Except GoError Feed :=
  match head with
  | .error e => .error e
  | .ok headResp =>
    if headResp.statusCode < 200 ∨ headResp.statusCode ≥ 300 then
      .error (.errorString ("HEAD request failed with status " ++ toString headResp.statusCode))
    else
      let contentType := goToLower headResp.contentType
      if strContains contentType "application/rss+xml" || strContains contentType "text/xml" then
        .ok ⟨url, "", "rss"⟩
      else if strContains contentType "application/atom+xml" then
        .ok ⟨url, "", "atom"⟩
      else if strContains contentType "application/json" ||
          strContains contentType "application/feed+json" then
        .ok ⟨url, "", "json"⟩
      else validateFeedContent url get

/-- The fixed candidate path list. -/
def commonFeedPaths : List String :=
  ["/feed", "/rss", "/atom.xml", "/index.xml", "/rss.xml", "/feed.xml",
   "/feeds/all.atom.xml", "/feeds/posts/default", "/api/rss", "/feed.rss"]

/-- The maxConcurrency coercion at the top of ScanCommonFeedPaths:
non-positive values become 3. -/
def effectiveConcurrency (n : Int) : Nat :=
  if n ≤ 0 then 3 else n.toNat

/-- A transport for the prober: for each full URL, the outcome of the HEAD
request and the outcome of the GET request. -/
def ProbeNet : Type := String → Except GoError HTTPResponse × Except GoError HTTPResponse

/-- ScanCommonFeedPaths.  Functionally: fail only when the base URL does not
parse, otherwise probe every path, swallowing per-path failures.  The
concurrent completion order of the Go version is not observable in the set
of collected feeds; this sequential model collects them in path order, and
the in-flight bound of the goroutine pool is modelled separately by ScanStep
and Reachable below, sharing effectiveConcurrency and commonFeedPaths. -/
def ScanCommonFeedPaths (net : ProbeNet) (baseURL : String) (maxConcurrency : Int) :
    Except GoError (List Feed) :=
  let _mc := effectiveConcurrency maxConcurrency
  match urlParse baseURL.data with
  | .error e =>
    .error (.wrapError ("failed to parse base URL: " ++ e) (.errorString e))
  | .ok parsedURL =>
    .ok (commonFeedPaths.filterMap (fun path =>
      let fullURL := String.mk (parsedURL.scheme ++ "://".data ++ parsedURL.host ++ path.data)
      match checkFeedURL fullURL (net fullURL).1 (net fullURL).2 with
      | .ok feed => some feed
      | .error _ => none))

/-! ### Concurrency model of the prober

One goroutine per candidate path is launched at once; each acquires the
counting semaphore (capacity effectiveConcurrency), runs its network probe
while holding it, releases it, and signals the wait group; the collecting
caller returns only once every goroutine is done.  A state counts the
goroutines still waiting for the semaphore, the ones holding it (their probe
in flight), and the finished ones; the return event of the caller is enabled
only when all are finished. -/

structure ScanState where
  waiting : Nat
  holding : Nat
  done : Nat
  returned : Bool
  deriving Repr, DecidableEq

/-- Initial state: every path has its goroutine launched, none admitted. -/
def initScanState : ScanState :=
  ⟨commonFeedPaths.length, 0, 0, false⟩

/-- Interleaving steps of ScanCommonFeedPaths under semaphore capacity mc. -/
inductive ScanStep (mc : Nat) : ScanState → ScanState → Prop
  | acquire (w h d : Nat) (r : Bool) :
      h < mc → ScanStep mc ⟨w + 1, h, d, r⟩ ⟨w, h + 1, d, r⟩
  | finish (w h d : Nat) (r : Bool) :
      ScanStep mc ⟨w, h + 1, d, r⟩ ⟨w, h, d + 1, r⟩
  | ret (w h d : Nat) :
      w = 0 → h = 0 → ScanStep mc ⟨w, h, d, false⟩ ⟨w, h, d, true⟩

/-- States reachable from the launch of the scan. -/
inductive ScanReachable (mc : Nat) : ScanState → Prop
  | init : ScanReachable mc initScanState
  | step {s s' : ScanState} : ScanReachable mc s → ScanStep mc s s' → ScanReachable mc s'

/-! ## Discovery Orchestrator (FindFeedsWithOptions) -/

/-- The page fetch outcome: status code and body, the body as the lines the
scanner will deliver plus an optional trailing read error. -/
structure PageResponse where
  statusCode : Int
  bodyLines : List String
  readErr : Option GoError
  deriving Repr, DecidableEq

/-- FindFeedsWithOptions.  The page fetch outcome, the markup parser and the
prober transport are explicit arguments; everything downstream is the code
of feed_finder.go. -/
def FindFeedsWithOptions (page : Except GoError PageResponse)
    (parseLinks : String → List LinkElem) (net : ProbeNet)
    (url : String) (opts : Options) : Except GoError (List Feed) :=
  match page with
  | .error e => .error e
  | .ok resp =>
    if resp.statusCode < 200 ∨ resp.statusCode ≥ 300 then
      .error (.errorString ("HTTP request failed with status " ++ toString resp.statusCode))
    else
      match ExtractFeedLinksFromStream resp.bodyLines resp.readErr parseLinks url with
      | .error e => .error e
      | .ok feeds =>
        if feeds.length > 0 then .ok feeds
        else if opts.ScanCommonPaths then
          match ScanCommonFeedPaths net url opts.MaxConcurrency with
          | .error e => .error e
          | .ok commonFeeds =>
            if commonFeeds.length > 0 then .ok commonFeeds
            else .error (.errorString "no feeds found")
        else .error (.errorString "no feeds found")

/-- FindFeeds delegates with default options. -/
def FindFeeds (page : Except GoError PageResponse)
    (parseLinks : String → List LinkElem) (net : ProbeNet)
    (url : String) : Except GoError (List Feed) :=
  FindFeedsWithOptions page parseLinks net url ⟨false, 0⟩

/-! ### Scratch checks against the Go unit tests -/

example :
    ExtractFeedLinks
      [⟨"https://example.com/feed.xml", "Example RSS Feed", "alternate", "application/rss+xml"⟩]
      "https://example.com" =
    [⟨"https://example.com/feed.xml", "Example RSS Feed", "rss"⟩] := by decide

example :
    ExtractFeedLinks
      [⟨"/rss.xml", "RSS Feed", "ALTERNATE", "APPLICATION/RSS+XML"⟩]
      "https://example.com" =
    [⟨"https://example.com/rss.xml", "RSS Feed", "rss"⟩] := by decide

example :
    ExtractFeedLinks [⟨"/style.css", "", "stylesheet", ""⟩] "https://example.com" = [] := by
  decide

example :
    extractHeadSection ["<html><head>", "<link>", "</head><body>"] none =
      .ok "<html><head>\n<link>\n</head><body>\n" := rfl

example : extractHeadSection ["<body>", "<head>"] none = .ok "" := rfl

example : extractHeadSection ["<head>", "<body>"] none = .ok "" := rfl

example : extractHeadSection ["<body><head></head>"] none = .ok "<body><head></head>\n" := rfl

/-! ## Lemmas about the head-extractor scan loop -/

/-- A position of an occurrence implies the substring test succeeds. -/
theorem listIndexOfSub_contains {s pat : List Char} {n : Nat}
    (h : listIndexOfSub s pat = some n) : listContainsSub s pat = true := by
  induction s generalizing n with
  | nil =>
    simp only [listIndexOfSub] at h
    split at h
    · simpa [listContainsSub, List.isEmpty_iff] using ‹pat.isEmpty = true›
    · exact absurd h (by simp)
  | cons c t ih =>
    simp only [listIndexOfSub] at h
    split at h
    · simp [listContainsSub, *]
    · simp only [Option.map_eq_some'] at h
      obtain ⟨m, hm, _⟩ := h
      simp [listContainsSub, ih hm]

/-- A line with neither a head-opening nor a body marker leaves the
pre-head loop state unchanged. -/
theorem headLoop_skip {line : String}
    (h1 : strContains (goToLower line) "<head" = false)
    (h2 : strContains (goToLower line) "<body" = false)
    (rest : List String) (buf : String) :
    headLoop (line :: rest) false false buf = headLoop rest false false buf := by
  simp [headLoop, h1, h2]

/-- Lines without head or body markers before the head are skipped without
touching the buffer. -/
theorem headLoop_pre_skip {pre : List String}
    (h : ∀ l ∈ pre, strContains (goToLower l) "<head" = false ∧
         strContains (goToLower l) "<body" = false)
    (xs : List String) (buf : String) :
    headLoop (pre ++ xs) false false buf = headLoop xs false false buf := by
  induction pre with
  | nil => rfl
  | cons l pre ih =>
    have hl := h l (by simp)
    rw [List.cons_append, headLoop_skip hl.1 hl.2]
    exact ih (fun x hx => h x (by simp [hx])) 

/-- Give-up: a body marker reached before any head marker breaks the loop
with an untouched buffer. -/
theorem headLoop_giveup {pre : List String}
    (hpre : ∀ l ∈ pre, strContains (goToLower l) "<head" = false)
    {bl : String}
    (hb : strContains (goToLower bl) "<body" = true)
    (hh : strContains (goToLower bl) "<head" = false)
    (rest : List String) (buf : String) :
    headLoop (pre ++ bl :: rest) false false buf = .broke buf := by
  induction pre with
  | nil => simp [headLoop, hb, hh]
  | cons l pre ih =>
    have hl := hpre l (by simp)
    by_cases hlb : strContains (goToLower l) "<body" = true
    · rw [List.cons_append]
      simp [headLoop, hl, hlb]
    · rw [List.cons_append, headLoop_skip hl (by simpa using hlb)]
      exact ih (fun x hx => hpre x (by simp [hx]))

/-- A line holding a head marker but no body marker and no closing tag
starts accumulation at that line. -/
theorem headLoop_start {line : String}
    (h1 : strContains (goToLower line) "<head" = true)
    (h2 : strContains (goToLower line) "<body" = false)
    (h3 : strContains (goToLower line) "</head>" = false)
    (rest : List String) (buf : String) :
    headLoop (line :: rest) false false buf =
      headLoop rest true true (buf ++ line ++ "\n") := by
  simp [headLoop, h1, h2, h3]

/-- In-head abort: a line with a body marker and no closing tag returns the
empty fragment immediately. -/
theorem headLoop_abort {line : String}
    (hb : strContains (goToLower line) "<body" = true)
    (hc : strContains (goToLower line) "</head>" = false)
    (rest : List String) (buf : String) :
    headLoop (line :: rest) true true buf = .early := by
  simp [headLoop, hb, hc]

/-- A line holding both markers (head first or not) and no closing tag,
reached before any head marker, also aborts with the empty fragment. -/
theorem headLoop_sameline_abort {line : String}
    (h1 : strContains (goToLower line) "<head" = true)
    (hb : strContains (goToLower line) "<body" = true)
    (hc : strContains (goToLower line) "</head>" = false)
    (rest : List String) (buf : String) :
    headLoop (line :: rest) false false buf = .early := by
  simp [headLoop, h1, hb, hc]

/-- While in the head, marker-free lines are accumulated with a trailing
newline each, to the end of the stream. -/
theorem headLoop_accum {rest : List String}
    (h : ∀ l ∈ rest, strContains (goToLower l) "<body" = false ∧
         strContains (goToLower l) "</head>" = false)
    (buf : String) :
    headLoop rest true true buf =
      .exhausted (rest.foldl (fun b l => b ++ l ++ "\n") buf) := by
  induction rest generalizing buf with
  | nil => rfl
  | cons l rest ih =>
    have hl := h l (by simp)
    simp only [headLoop, hl.1, hl.2, Bool.true_and, Bool.not_true, Bool.false_and,
      Bool.and_false, if_false, List.foldl_cons]
    simpa using ih (fun x hx => h x (by simp [hx])) (buf ++ l ++ "\n")

/-! ## Claims C4, C5, C10 about extractHeadSection -/

/-- C4 (amended).  A body tag before any opening head tag yields an empty
fragment: (a) whenever a line containing a body marker and no head marker
appears before any head-marker line; (b) when body and a later head marker
share one line, provided that line does not also contain the closing tag
(with the closing tag present on that same line, the extractor instead
returns that line as the head fragment, refuting the unamended claim). -/
theorem C4_body_before_head_amended :
    (∀ (pre : List String) (bl : String) (rest : List String),
      (∀ l ∈ pre, strContains (goToLower l) "<head" = false) →
      strContains (goToLower bl) "<body" = true →
      strContains (goToLower bl) "<head" = false →
      extractHeadSection (pre ++ bl :: rest) none = .ok "")
    ∧
    (∀ (pre : List String) (line : String) (rest : List String),
      (∀ l ∈ pre, strContains (goToLower l) "<head" = false ∧
        strContains (goToLower l) "<body" = false) →
      (∃ b h, listIndexOfSub (goToLower line).data "<body".data = some b ∧
        listIndexOfSub (goToLower line).data "<head".data = some h ∧ b < h) →
      strContains (goToLower line) "</head>" = false →
      extractHeadSection (pre ++ line :: rest) none = .ok "") := by
  constructor
  · intro pre bl rest hpre hb hh
    unfold extractHeadSection
    rw [headLoop_giveup hpre hb hh]
  · intro pre line rest hpre hidx hc
    obtain ⟨b, h, hbidx, hhidx, _⟩ := hidx
    have hb : strContains (goToLower line) "<body" = true := listIndexOfSub_contains hbidx
    have hh : strContains (goToLower line) "<head" = true := listIndexOfSub_contains hhidx
    unfold extractHeadSection
    rw [headLoop_pre_skip hpre, headLoop_sameline_abort hh hb hc]

/-- C4 witness: both parts applied at concrete streams. -/
theorem C4_body_before_head_witness :
    extractHeadSection ["<body>", "<head>"] none = .ok ""
    ∧ extractHeadSection ["<!doctype html>", "<body x><head y>"] none = .ok "" := by
  constructor
  · exact C4_body_before_head_amended.1 [] "<body>" ["<head>"]
      (by intro l hl; simp at hl) (by decide) (by decide)
  · exact C4_body_before_head_amended.2 ["<!doctype html>"] "<body x><head y>" []
      (by intro l hl; simp at hl; subst hl; exact ⟨by decide, by decide⟩)
      ⟨0, 8, by decide, by decide, by decide⟩ (by decide)

/-- C4 counterexample: in the stream whose single line is
"<body><head></head>", the body occurrence (position 0) precedes the head
occurrence (position 6) on the same line, yet the extractor returns that
line as the fragment rather than the empty fragment the claim demands. -/
theorem C4_counterexample :
    extractHeadSection ["<body><head></head>"] none = .ok "<body><head></head>\n"
    ∧ listIndexOfSub (goToLower "<body><head></head>").data "<body".data = some 0
    ∧ listIndexOfSub (goToLower "<body><head></head>").data "<head".data = some 6
    ∧ ("<body><head></head>\n" : String) ≠ "" :=
  ⟨rfl, by decide, by decide, by decide⟩

/-- C5 (amended).  When the stream has a head-marker line, no closing tag
ever appears, and no body marker appears anywhere (not only after the head
marker, as the unamended claim had it), the extractor returns every line
from the head-marker line on, each with a newline appended, and no error. -/
theorem C5_unterminated_head_amended :
    ∀ (pre : List String) (line : String) (rest : List String),
      (∀ l ∈ pre, strContains (goToLower l) "<head" = false) →
      strContains (goToLower line) "<head" = true →
      (∀ l ∈ pre ++ line :: rest, strContains (goToLower l) "<body" = false ∧
        strContains (goToLower l) "</head>" = false) →
      extractHeadSection (pre ++ line :: rest) none =
        .ok ((line :: rest).foldl (fun b l => b ++ l ++ "\n") "") := by
  intro pre line rest hpre hline hall
  have hpre2 : ∀ l ∈ pre, strContains (goToLower l) "<head" = false ∧
      strContains (goToLower l) "<body" = false :=
    fun l hl => ⟨hpre l hl, (hall l (by simp [hl])).1⟩
  have hl2 := hall line (by simp)
  have hrest : ∀ l ∈ rest, strContains (goToLower l) "<body" = false ∧
      strContains (goToLower l) "</head>" = false :=
    fun l hl => hall l (by simp [hl])
  unfold extractHeadSection
  rw [headLoop_pre_skip hpre2, headLoop_start hline hl2.1 hl2.2, headLoop_accum hrest]
  simp

/-- C5 witness: a head-marker line followed by one more line, stream ending
without a closing tag. -/
theorem C5_unterminated_head_witness :
    extractHeadSection ["<html>", "<head>", "<link rel=x>"] none =
      .ok "<head>\n<link rel=x>\n" := by
  have := C5_unterminated_head_amended ["<html>"] "<head>" ["<link rel=x>"]
    (by intro l hl; simp at hl; subst hl; decide)
    (by decide)
    (by intro l hl; fin_cases hl <;> exact ⟨by decide, by decide⟩)
  simpa using this

/-- C5 counterexample: the stream ["<body x", "<head foo"] contains a head
marker, ends with no closing tag, and has no body marker after the head
marker — the unamended claim then demands the fragment "<head foo\n", but
the extractor gives up at the earlier body line and returns the empty
fragment. -/
theorem C5_counterexample :
    extractHeadSection ["<body x", "<head foo"] none = .ok ""
    ∧ strContains (goToLower "<head foo") "<head" = true
    ∧ strContains (goToLower "<body x") "</head>" = false
    ∧ strContains (goToLower "<head foo") "</head>" = false
    ∧ strContains (goToLower "<head foo") "<body" = false
    ∧ ("" : String) ≠ "<head foo" ++ "\n" :=
  ⟨rfl, by decide, by decide, by decide, by decide, by decide⟩

/-- C10 (amended).  Detection is per-line and substring-based, with the
precedence the code gives the three tests: (1) a line containing a head
marker (even inside a longer token such as "<header>"), no body marker and
no closing tag starts accumulation at that line; (2) a line containing a
body marker and no head marker, reached before any head-marker line,
triggers the give-up with an empty fragment; (3) while in the head, a line
containing a body marker triggers the abort only when it does not also
contain the closing tag (the unamended claim asserted every body-marker
line triggers give-up or abort). -/
theorem C10_substring_detection_amended :
    (∀ (line : String) (rest : List String) (buf : String),
      strContains (goToLower line) "<head" = true →
      strContains (goToLower line) "<body" = false →
      strContains (goToLower line) "</head>" = false →
      headLoop (line :: rest) false false buf =
        headLoop rest true true (buf ++ line ++ "\n"))
    ∧
    (∀ (pre : List String) (bl : String) (rest : List String),
      (∀ l ∈ pre, strContains (goToLower l) "<head" = false) →
      strContains (goToLower bl) "<body" = true →
      strContains (goToLower bl) "<head" = false →
      extractHeadSection (pre ++ bl :: rest) none = .ok "")
    ∧
    (∀ (line : String) (rest : List String) (buf : String),
      strContains (goToLower line) "<body" = true →
      strContains (goToLower line) "</head>" = false →
      headLoop (line :: rest) true true buf = .early) := by
  refine ⟨?_, ?_, ?_⟩
  · intro line rest buf h1 h2 h3
    exact headLoop_start h1 h2 h3 rest buf
  · intro pre bl rest hpre hb hh
    unfold extractHeadSection
    rw [headLoop_giveup hpre hb hh]
  · intro line rest buf hb hc
    exact headLoop_abort hb hc rest buf

/-- C10 witness: "<header>" starts accumulation by substring match; a quoted
"<body" inside an attribute value still triggers the give-up. -/
theorem C10_substring_detection_witness :
    headLoop ["<header>"] false false "" = headLoop [] true true ("" ++ "<header>" ++ "\n")
    ∧ extractHeadSection ["<p data-x=\"<body\">"] none = .ok ""
    ∧ headLoop ["text <BODY> text"] true true "x" = .early := by
  refine ⟨?_, ?_, ?_⟩
  · exact C10_substring_detection_amended.1 "<header>" [] "" (by decide) (by decide) (by decide)
  · exact C10_substring_detection_amended.2.1 [] "<p data-x=\"<body\">" []
      (by intro l hl; simp at hl) (by decide) (by decide)
  · exact C10_substring_detection_amended.2.2 "text <BODY> text" [] "x" (by decide) (by decide)

/-- C10 counterexample: the in-head line "<body></head>" contains a body
marker, yet triggers neither the give-up nor the abort — the extractor
terminates normally and returns a non-empty fragment containing that line,
refuting the unamended claim that any body-marker line triggers give-up or
abort. -/
theorem C10_counterexample :
    strContains (goToLower "<body></head>") "<body" = true
    ∧ extractHeadSection ["<head>", "<body></head>"] none = .ok "<head>\n<body></head>\n"
    ∧ ("<head>\n<body></head>\n" : String) ≠ "" :=
  ⟨by decide, rfl, by decide⟩

/-! ## Claims C6, C3, C7, C8 -/

/-- An element failing the classifier conditions produces no candidate. -/
theorem classifyLink_none {e : LinkElem} {url : String}
    (h : goToLower e.rel ≠ "alternate" ∨ e.href = "" ∨
      (goToLower e.linkType ≠ MimeTypeRSS ∧ goToLower e.linkType ≠ MimeTypeAtom ∧
       goToLower e.linkType ≠ MimeTypeJSON ∧ goToLower e.linkType ≠ MimeTypeFeedJSON)) :
    classifyLink url e = none := by
  rcases h with h | h | ⟨h1, h2, h3, h4⟩
  · simp [classifyLink, h]
  · simp [classifyLink, h]
  · simp [classifyLink, h1, h2, h3, h4]

/-- C6.  Elements whose rel is not alternate, whose href is empty, or whose
type is not exactly one of the four recognised MIME types are skipped:
removing such an element from the parsed document leaves the classifier
output unchanged, and no error is possible (the classifier is total). -/
theorem C6_classifier_selectivity :
    ∀ (e : LinkElem) (url : String) (ls1 ls2 : List LinkElem),
      (goToLower e.rel ≠ "alternate" ∨ e.href = "" ∨
        (goToLower e.linkType ≠ MimeTypeRSS ∧ goToLower e.linkType ≠ MimeTypeAtom ∧
         goToLower e.linkType ≠ MimeTypeJSON ∧ goToLower e.linkType ≠ MimeTypeFeedJSON)) →
      ExtractFeedLinks (ls1 ++ e :: ls2) url = ExtractFeedLinks (ls1 ++ ls2) url := by
  intro e url ls1 ls2 h
  unfold ExtractFeedLinks
  rw [List.filterMap_append, List.filterMap_append, List.filterMap_cons_none]
  exact classifyLink_none h

/-- C6 witness: a stylesheet link among feed links is dropped without
affecting the other candidates. -/
theorem C6_classifier_selectivity_witness :
    ExtractFeedLinks
      ([] ++ ⟨"/style.css", "", "stylesheet", ""⟩ ::
        [⟨"https://example.com/f.xml", "T", "alternate", "application/rss+xml"⟩])
      "https://example.com" =
    ExtractFeedLinks ([] ++ [⟨"https://example.com/f.xml", "T", "alternate", "application/rss+xml"⟩])
      "https://example.com" :=
  C6_classifier_selectivity ⟨"/style.css", "", "stylesheet", ""⟩ "https://example.com" [] _
    (Or.inl (by decide))

/-- C3.  The text/xml asymmetry between the two MIME tables: the Link
Classifier maps a link element of type text/xml to no candidate, while the
stage-1 existence probe of the Common-Path Prober maps a 2xx HEAD response
whose content type contains text/xml to an immediately accepted candidate
of kind rss with an empty title. -/
theorem C3_text_xml_asymmetry :
    (∀ (e : LinkElem) (url : String),
      goToLower e.rel = "alternate" → e.href ≠ "" → goToLower e.linkType = "text/xml" →
      ExtractFeedLinks [e] url = [])
    ∧
    (∀ (url : String) (s : Int) (ct body : String) (get : Except GoError HTTPResponse),
      200 ≤ s → s < 300 → strContains (goToLower ct) "text/xml" = true →
      checkFeedURL url (.ok ⟨s, ct, body⟩) get = .ok ⟨url, "", "rss"⟩) := by
  constructor
  · intro e url hrel hhref htype
    unfold ExtractFeedLinks
    rw [List.filterMap_cons_none, List.filterMap_nil]
    simp [classifyLink, hrel, hhref, htype, MimeTypeRSS, MimeTypeAtom, MimeTypeJSON,
      MimeTypeFeedJSON]
  · intro url s ct body get h1 h2 h3
    have hs : ¬(s < 200 ∨ s ≥ 300) := by omega
    simp [checkFeedURL, hs, h3]

/-- C3 witness: both halves at concrete inputs. -/
theorem C3_text_xml_asymmetry_witness :
    ExtractFeedLinks [⟨"/f", "", "alternate", "text/xml"⟩] "http://example.com" = []
    ∧ checkFeedURL "http://example.com/feed" (.ok ⟨200, "text/xml; charset=utf-8", ""⟩)
        (.error (.errorString "unused")) = .ok ⟨"http://example.com/feed", "", "rss"⟩ :=
  ⟨C3_text_xml_asymmetry.1 ⟨"/f", "", "alternate", "text/xml"⟩ "http://example.com"
      (by decide) (by decide) (by decide),
   C3_text_xml_asymmetry.2 "http://example.com/feed" 200 "text/xml; charset=utf-8" ""
      (.error (.errorString "unused")) (by decide) (by decide) (by decide)⟩

/-- C7.  When the base URL or the href fails to parse, ResolveFeedURL
returns the href verbatim and signals nothing. -/
theorem C7_resolution_fallback :
    ∀ (href base : String),
      (∃ e, urlParse base.data = .error e) ∨ (∃ e, urlParse href.data = .error e) →
      ResolveFeedURL href base = href := by
  intro href base h
  unfold ResolveFeedURL
  by_cases hfast : startsWithHTTP href = true
  · rw [if_pos hfast]
  · rw [if_neg hfast]
    rcases h with ⟨e, he⟩ | ⟨e, he⟩
    · rw [he]
    · cases hb : urlParse base.data with
      | error _ => rfl
      | ok b => rw [he]

/-- C7 witness: the malformed base URL of the repository's own unit test. -/
theorem C7_resolution_fallback_witness :
    ResolveFeedURL "/feed.xml" "://invalid-url" = "/feed.xml" :=
  C7_resolution_fallback "/feed.xml" "://invalid-url"
    (Or.inl ⟨"missing protocol scheme", rfl⟩)

/-- True on the ok constructor. -/
def isOkE {ε α : Type} : Except ε α → Bool
  | .ok _ => true
  | .error _ => false

/-- C8.  ScanCommonFeedPaths fails exactly when the base URL fails to parse:
for every transport (any number of failing probes) and every concurrency
argument, the scan outcome is ok if and only if url.Parse succeeds on the
base URL — in particular a base that parses to an empty scheme or host
still yields a nil error. -/
theorem C8_scan_error_iff_parse :
    ∀ (net : ProbeNet) (baseURL : String) (mc : Int),
      isOkE (ScanCommonFeedPaths net baseURL mc) = isOkE (urlParse baseURL.data) := by
  intro net baseURL mc
  unfold ScanCommonFeedPaths
  cases urlParse baseURL.data with
  | error e => rfl
  | ok u => rfl

/-! ## Claim C9: the prober concurrency bound -/

/-- Combined inductive invariant of the scan-state machine: the semaphore
bound on in-flight probes, conservation of the task count, and the return
event only firing once nothing waits or runs. -/
theorem scanState_invariant (mc : Nat) (s : ScanState) (h : ScanReachable mc s) :
    s.holding ≤ mc ∧ s.waiting + s.holding + s.done = commonFeedPaths.length ∧
      (s.returned = true → s.waiting = 0 ∧ s.holding = 0) := by
  induction h with
  | init => refine ⟨Nat.zero_le mc, rfl, ?_⟩; intro hr; cases hr
  | step hreach hstep ih =>
    cases hstep with
    | acquire w hh d r hlt =>
      refine ⟨hlt, by simp_all; omega, ?_⟩
      intro hr
      exact absurd (ih.2.2 hr).1 (by simp)
    | finish w hh d r =>
      refine ⟨by simp_all; omega, by simp_all; omega, ?_⟩
      intro hr
      exact absurd (ih.2.2 hr).2 (by simp)
    | ret w hh d hw hhold =>
      exact ⟨ih.1, ih.2.1, fun _ => ⟨hw, hhold⟩⟩

/-- C9.  One task is launched per candidate path, yet in every state the
scan can reach, at most effectiveConcurrency n probes hold the semaphore
(are in flight), and the collecting caller has returned only in states
where every launched probe has finished. -/
theorem C9_concurrency_bound :
    ∀ (n : Int) (s : ScanState),
      ScanReachable (effectiveConcurrency n) s →
      s.holding ≤ effectiveConcurrency n ∧
        (s.returned = true → s.done = commonFeedPaths.length) := by
  intro n s h
  obtain ⟨h1, h2, h3⟩ := scanState_invariant (effectiveConcurrency n) s h
  refine ⟨h1, fun hr => ?_⟩
  obtain ⟨hw, hh⟩ := h3 hr
  omega

/-- C9 witness: after launching and admitting one probe under bound 2, one
probe is in flight and the call has not returned. -/
theorem C9_concurrency_bound_witness :
    (ScanState.mk 9 1 0 false).holding ≤ effectiveConcurrency 2
    ∧ ((ScanState.mk 9 1 0 false).returned = true →
        (ScanState.mk 9 1 0 false).done = commonFeedPaths.length) :=
  C9_concurrency_bound 2 ⟨9, 1, 0, false⟩
    (ScanReachable.step ScanReachable.init (ScanStep.acquire 9 0 0 false (by decide)))

/-! ## Claim C2: the error kinds of FindFeedsWithOptions -/

/-- C2 (amended).  The fetch-failure and no-feeds failures of
FindFeedsWithOptions are both plain untyped error strings — errors.New and
fmt.Errorf values — distinguishable only by message: a non-2xx status
yields the bare string "HTTP request failed with status N" and an
error-free discovery with zero candidates (fallback disabled) yields the
bare string "no feeds found"; no RequestError or NotFoundError type exists
in the code, only a transport failure keeps its own typed cause. -/
theorem C2_untyped_errors_amended :
    (∀ (s : Int) (lines : List String) (parseLinks : String → List LinkElem)
       (net : ProbeNet) (url : String) (opts : Options),
      (s < 200 ∨ s ≥ 300) →
      FindFeedsWithOptions (.ok ⟨s, lines, none⟩) parseLinks net url opts =
        .error (.errorString ("HTTP request failed with status " ++ toString s)))
    ∧
    (∀ (s : Int) (lines : List String) (parseLinks : String → List LinkElem)
       (net : ProbeNet) (url : String) (opts : Options),
      ¬(s < 200 ∨ s ≥ 300) →
      ExtractFeedLinksFromStream lines none parseLinks url = .ok [] →
      opts.ScanCommonPaths = false →
      FindFeedsWithOptions (.ok ⟨s, lines, none⟩) parseLinks net url opts =
        .error (.errorString "no feeds found")) := by
  constructor
  · intro s lines parseLinks net url opts hs
    simp only [FindFeedsWithOptions]
    rw [if_pos hs]
  · intro s lines parseLinks net url opts hs hex hopts
    simp only [FindFeedsWithOptions]
    rw [if_neg hs, hex]
    simp [hopts]

/-- C2 witness: a 404 page and a reachable page with a feed-free head. -/
theorem C2_untyped_errors_witness :
    FindFeedsWithOptions (.ok ⟨404, [], none⟩) (fun _ => [])
        (fun _ => (.error (.errorString "refused"), .error (.errorString "refused")))
        "https://example.com" ⟨false, 3⟩ =
      .error (.errorString "HTTP request failed with status 404")
    ∧ FindFeedsWithOptions (.ok ⟨200, ["<head><title>No feeds here</title></head>"], none⟩)
        (fun _ => [])
        (fun _ => (.error (.errorString "refused"), .error (.errorString "refused")))
        "https://example.com" ⟨false, 3⟩ =
      .error (.errorString "no feeds found") :=
  ⟨C2_untyped_errors_amended.1 404 [] (fun _ => [])
      (fun _ => (.error (.errorString "refused"), .error (.errorString "refused")))
      "https://example.com" ⟨false, 3⟩ (by omega),
   C2_untyped_errors_amended.2 200 ["<head><title>No feeds here</title></head>"] (fun _ => [])
      (fun _ => (.error (.errorString "refused"), .error (.errorString "refused")))
      "https://example.com" ⟨false, 3⟩ (by omega) rfl rfl⟩

/-- C2 counterexample: the two failure cases the claim requires to be told
apart by type both come back as the same dynamic error shape — a bare
error string — differing only in their message, so no caller can
distinguish a RequestError from a NotFoundError by type. -/
theorem C2_counterexample :
    FindFeedsWithOptions (.ok ⟨404, [], none⟩) (fun _ => [])
        (fun _ => (.error (.errorString "refused"), .error (.errorString "refused")))
        "https://example.com" ⟨false, 3⟩ =
      .error (.errorString "HTTP request failed with status 404")
    ∧ FindFeedsWithOptions (.ok ⟨200, ["<head></head>"], none⟩) (fun _ => [])
        (fun _ => (.error (.errorString "refused"), .error (.errorString "refused")))
        "https://example.com" ⟨false, 3⟩ =
      .error (.errorString "no feeds found")
    ∧ GoError.isErrorString (.errorString "HTTP request failed with status 404") = true
    ∧ GoError.isErrorString (.errorString "no feeds found") = true :=
  ⟨rfl, rfl, rfl, rfl⟩

/-! ## Lemmas for claim C1: absoluteness of produced URLs -/

/-- Packing a valid codepoint round-trips through Char.ofNat. -/
theorem toNat_ofNat_valid (n : Nat) (h : n.isValidChar) : (Char.ofNat n).toNat = n := by
  simp only [Char.ofNat, dif_pos h, Char.ofNatAux, Char.toNat]
  rfl

/-- ASCII lowercasing preserves letterhood. -/
theorem lowerChar_isAlpha (c : Char) : isAlphaChar (lowerChar c) = isAlphaChar c := by
  unfold lowerChar
  by_cases h : (65 ≤ c.toNat && c.toNat ≤ 90) = true
  · rw [if_pos h]
    simp only [Bool.and_eq_true, decide_eq_true_eq] at h
    have hv : (c.toNat + 32).isValidChar := Or.inl (by omega)
    simp only [isAlphaChar, toNat_ofNat_valid _ hv]
    have h1 : (97 ≤ c.toNat + 32 && c.toNat + 32 ≤ 122) = true := by
      simp only [Bool.and_eq_true, decide_eq_true_eq]; omega
    have h2 : (65 ≤ c.toNat && c.toNat ≤ 90) = true := by
      simp only [Bool.and_eq_true, decide_eq_true_eq]; omega
    rw [h1, h2]
    simp
  · rw [if_neg h]

/-- ASCII lowercasing maps letters to letters, digits and punctuation to
themselves, so scheme characters stay scheme characters. -/
theorem lowerChar_isScheme (c : Char) : isSchemeChar (lowerChar c) = isSchemeChar c := by
  unfold isSchemeChar
  rw [lowerChar_isAlpha]
  by_cases h : (65 ≤ c.toNat && c.toNat ≤ 90) = true
  · have hlc : lowerChar c = Char.ofNat (c.toNat + 32) := by rw [lowerChar, if_pos h]
    simp only [Bool.and_eq_true, decide_eq_true_eq] at h
    have hv : (c.toNat + 32).isValidChar := Or.inl (by omega)
    have htn : (lowerChar c).toNat = c.toNat + 32 := by rw [hlc, toNat_ofNat_valid _ hv]
    have halpha : isAlphaChar c = true := by
      simp only [isAlphaChar, Bool.or_eq_true, Bool.and_eq_true, decide_eq_true_eq]
      omega
    rw [halpha]
    simp
  · have hlc : lowerChar c = c := by rw [lowerChar, if_neg h]
    rw [hlc]

/-- Scheme characters are never the terminating colon. -/
theorem isSchemeChar_ne_colon {c : Char} (h : isSchemeChar c = true) : c ≠ ':' := by
  intro hc
  subst hc
  simp [isSchemeChar, isAlphaChar, isDigitChar] at h

/-- A wellformed nonempty scheme: leading letter, scheme characters only. -/
def ValidScheme (sch : List Char) : Prop :=
  ∃ c d, sch = c :: d ∧ isAlphaChar c = true ∧ ∀ x ∈ sch, isSchemeChar x = true

/-- Walking wellformed scheme characters, schemeLoop stops exactly at the
appended colon. -/
theorem schemeLoop_concat {l : List Char} (h : ∀ x ∈ l, isSchemeChar x = true)
    (acc r : List Char) :
    schemeLoop (l ++ ':' :: r) acc = some (acc.reverse ++ l, r) := by
  induction l generalizing acc with
  | nil => simp [schemeLoop]
  | cons c t ih =>
    have hc := h c (by simp)
    have hne : ¬(c = ':') := isSchemeChar_ne_colon hc
    rw [List.cons_append]
    simp only [schemeLoop, if_neg hne, hc, if_true]
    rw [ih (fun x hx => h x (by simp [hx])) (c :: acc)]
    simp

/-- Whatever schemeLoop returns extends the seed with scheme characters. -/
theorem schemeLoop_spec {cs acc : List Char} {p : List Char × List Char}
    (h : schemeLoop cs acc = some p) (hacc : ∀ x ∈ acc, isSchemeChar x = true) :
    (∀ x ∈ p.1, isSchemeChar x = true) ∧ ∃ d, p.1 = acc.reverse ++ d ∧
      ∀ x ∈ d, isSchemeChar x = true := by
  induction cs generalizing acc with
  | nil => simp [schemeLoop] at h
  | cons c t ih =>
    simp only [schemeLoop] at h
    split at h
    · rename_i hc
      subst hc
      cases h
      constructor
      · intro x hx
        simp only [List.mem_append, List.mem_reverse, List.not_mem_nil, or_false] at hx
        exact hacc x (by simpa using hx)
      · exact ⟨[], by simp, by simp⟩
    · split at h
      · rename_i hsc
        have := ih h (by
          intro x hx
          simp only [List.mem_cons] at hx
          rcases hx with rfl | hx
          · exact hsc
          · exact hacc x hx)
        refine ⟨this.1, ?_⟩
        obtain ⟨d, hd, hdall⟩ := this.2
        exact ⟨c :: d, by simpa [List.reverse_cons, List.append_assoc] using hd,
          by intro x hx; simp only [List.mem_cons] at hx
             rcases hx with rfl | hx
             · exact hsc
             · exact hdall x hx⟩
      · exact absurd h (by simp)

/-- A nonempty scheme produced by getScheme is wellformed. -/
theorem getScheme_valid {raw : List Char} {p : List Char × List Char}
    (h : getScheme raw = .ok p) : p.1 = [] ∨ ValidScheme p.1 := by
  unfold getScheme at h
  split at h
  · cases h; exact Or.inl rfl
  · rename_i c cs
    split at h
    · rename_i halpha
      split at h
      · rename_i sch rest hloop
        cases h
        have := schemeLoop_spec hloop (by
          intro x hx
          simp only [List.mem_singleton] at hx
          subst hx
          simp [isSchemeChar, halpha])
        obtain ⟨hall, d, hd, _⟩ := this
        exact Or.inr ⟨c, d, by simpa using hd, halpha, hall⟩
      · cases h; exact Or.inl rfl
    · split at h
      · exact absurd h (by simp)
      · cases h; exact Or.inl rfl

/-- Lowercasing preserves scheme wellformedness. -/
theorem ValidScheme_map_lower {sch : List Char} (h : ValidScheme sch) :
    ValidScheme (sch.map lowerChar) := by
  obtain ⟨c, d, rfl, hc, hall⟩ := h
  refine ⟨lowerChar c, d.map lowerChar, by simp, by rw [lowerChar_isAlpha]; exact hc, ?_⟩
  intro x hx
  simp only [List.map_cons, List.mem_cons, List.mem_map] at hx
  rcases hx with rfl | ⟨y, hy, rfl⟩
  · rw [lowerChar_isScheme]; exact hall c (by simp)
  · rw [lowerChar_isScheme]; exact hall y (by simp [hy])

/-- parseAuthorityPath copies the scheme it is given into its result. -/
theorem parseAuthorityPath_scheme {sch rest : List Char} {fq : Bool} {rq : List Char}
    {u : GoURL} (h : parseAuthorityPath sch rest fq rq = .ok u) : u.scheme = sch := by
  unfold parseAuthorityPath at h
  repeat' (first | split at h | dsimp only at h)
  all_goals first
    | (cases h; rfl)
    | simp at h

/-- The scheme of a parsed URL is the lowercased output of getScheme. -/
theorem urlParseInner_scheme {raw : List Char} {u : GoURL}
    (h : urlParseInner raw = .ok u) :
    ∃ p, getScheme raw = .ok p ∧ u.scheme = p.1.map lowerChar := by
  unfold urlParseInner at h
  split at h
  · exact absurd h (by simp)
  split at h
  · rename_i hstar
    cases h
    exact ⟨([], ['*']), by subst hstar; rfl, rfl⟩
  dsimp only at h
  split at h
  · exact absurd h (by simp)
  rename_i p hget
  refine ⟨p, hget, ?_⟩
  repeat' (first | split at h | dsimp only at h)
  all_goals first
    | (cases h; rfl)
    | exact parseAuthorityPath_scheme h
    | simp at h

/-- urlParse preserves the parsed scheme through the fragment attachment. -/
theorem urlParse_scheme {raw : List Char} {u : GoURL} (h : urlParse raw = .ok u) :
    ∃ p, getScheme (splitOnceCut raw '#').1 = .ok p ∧ u.scheme = p.1.map lowerChar := by
  unfold urlParse at h
  dsimp only at h
  split at h
  · exact absurd h (by simp)
  rename_i u0 hinner
  obtain ⟨p, hp, hs⟩ := urlParseInner_scheme hinner
  refine ⟨p, hp, ?_⟩
  repeat' split at h
  all_goals first
    | (cases h; exact hs)
    | simp at h

/-- Every scheme a successful parse yields is empty or wellformed. -/
theorem urlParse_scheme_valid {raw : List Char} {u : GoURL} (h : urlParse raw = .ok u) :
    u.scheme = [] ∨ ValidScheme u.scheme := by
  obtain ⟨p, hp, hs⟩ := urlParse_scheme h
  rcases getScheme_valid hp with h1 | h1
  · left; rw [hs, h1]; rfl
  · right; rw [hs]; exact ValidScheme_map_lower h1

/-- Splitting skips over a separator-free prefix. -/
theorem splitOnceCut_append {l m : List Char} {ch : Char} (h : ch ∉ l) :
    splitOnceCut (l ++ m) ch = (l ++ (splitOnceCut m ch).1, (splitOnceCut m ch).2) := by
  induction l with
  | nil => simp
  | cons c t ih =>
    have hc : ¬(c = ch) := fun hh => h (by simp [hh])
    rw [List.cons_append]
    simp only [splitOnceCut, if_neg hc]
    rw [ih (fun hh => h (by simp [hh]))]
    rfl

/-- getScheme on a URL of scheme http. -/
theorem getScheme_http (t : List Char) :
    getScheme ('h' :: 't' :: 't' :: 'p' :: ':' :: t) = .ok (['h', 't', 't', 'p'], t) := rfl

/-- getScheme on a URL of scheme https. -/
theorem getScheme_https (t : List Char) :
    getScheme ('h' :: 't' :: 't' :: 'p' :: 's' :: ':' :: t) =
      .ok (['h', 't', 't', 'p', 's'], t) := rfl

/-- An isPrefixOf test certifies an append decomposition. -/
theorem isPrefixOf_exists {l1 l2 : List Char} (h : l1.isPrefixOf l2 = true) :
    ∃ t, l2 = l1 ++ t := by
  rw [List.isPrefixOf_iff_prefix] at h
  obtain ⟨t, ht⟩ := h
  exact ⟨t, ht.symm⟩

/-- A base that carries the http or https fast-path prefix and parses has
that exact scheme. -/
theorem urlParse_http_scheme {s : String} {b : GoURL}
    (hpre : startsWithHTTP s = true) (h : urlParse s.data = .ok b) :
    b.scheme = "http".data ∨ b.scheme = "https".data := by
  unfold startsWithHTTP at hpre
  rw [Bool.or_eq_true] at hpre
  rcases hpre with hpre | hpre
  · obtain ⟨t, ht⟩ := isPrefixOf_exists hpre
    rw [ht] at h
    obtain ⟨p, hp, hs⟩ := urlParse_scheme h
    rw [show ("http://".data : List Char) = ['h', 't', 't', 'p', ':', '/', '/'] from rfl] at hp
    rw [show (['h', 't', 't', 'p', ':', '/', '/'] ++ t : List Char) =
      ['h', 't', 't', 'p', ':'] ++ ('/' :: '/' :: t) by simp] at hp
    rw [splitOnceCut_append (by decide)] at hp
    rw [show (['h', 't', 't', 'p', ':'] ++ (splitOnceCut ('/' :: '/' :: t) '#').1 : List Char) =
      'h' :: 't' :: 't' :: 'p' :: ':' :: (splitOnceCut ('/' :: '/' :: t) '#').1 from rfl,
      getScheme_http] at hp
    cases hp
    left
    rw [hs]
    rfl
  · obtain ⟨t, ht⟩ := isPrefixOf_exists hpre
    rw [ht] at h
    obtain ⟨p, hp, hs⟩ := urlParse_scheme h
    rw [show ("https://".data : List Char) = ['h', 't', 't', 'p', 's', ':', '/', '/'] from rfl] at hp
    rw [show (['h', 't', 't', 'p', 's', ':', '/', '/'] ++ t : List Char) =
      ['h', 't', 't', 'p', 's', ':'] ++ ('/' :: '/' :: t) by simp] at hp
    rw [splitOnceCut_append (by decide)] at hp
    rw [show (['h', 't', 't', 'p', 's', ':'] ++ (splitOnceCut ('/' :: '/' :: t) '#').1 : List Char) =
      'h' :: 't' :: 't' :: 'p' :: 's' :: ':' :: (splitOnceCut ('/' :: '/' :: t) '#').1 from rfl,
      getScheme_https] at hp
    cases hp
    right
    rw [hs]
    rfl

/-- Reference resolution keeps the reference scheme when present, else the
base scheme. -/
theorem resolveReference_scheme (u ref : GoURL) :
    (resolveReference u ref).scheme = if ref.scheme = [] then u.scheme else ref.scheme := by
  unfold resolveReference
  by_cases h : ref.scheme = []
  · rw [if_pos h, if_pos h]
    repeat' split
    all_goals rfl
  · rw [if_neg h, if_neg h]
    repeat' split
    all_goals rfl

/-- A wellformed scheme followed by a colon is recognised as a scheme. -/
theorem hasSchemeL_of_valid {sch : List Char} (h : ValidScheme sch) (r : List Char) :
    hasSchemeL (sch ++ ':' :: r) = true := by
  obtain ⟨c, d, rfl, hc, hall⟩ := h
  rw [List.cons_append]
  simp only [hasSchemeL, getScheme, if_pos hc]
  rw [schemeLoop_concat (fun x hx => hall x (by simp [hx])) [c] r]
  simp

/-- With a nonempty scheme, URL.String renders scheme, colon, then the
rest, so the rendered URL is absolute. -/
theorem urlString_hasScheme {u : GoURL} (h : ValidScheme u.scheme) :
    hasScheme (urlString u) = true := by
  have hv := h
  obtain ⟨c, d, hcd, hc, hall⟩ := h
  have hne : u.scheme ≠ [] := by rw [hcd]; simp
  unfold hasScheme urlString
  dsimp only
  rw [if_pos hne]
  repeat' split
  all_goals
    simp only [List.append_assoc, List.singleton_append, List.cons_append, List.nil_append]
    exact hasSchemeL_of_valid hv _

/-- The fast path keeps href verbatim, and an http(s)-prefixed string is
already absolute. -/
theorem startsWithHTTP_hasScheme {s : String} (h : startsWithHTTP s = true) :
    hasScheme s = true := by
  unfold startsWithHTTP at h
  rw [Bool.or_eq_true] at h
  unfold hasScheme
  rcases h with h | h
  · obtain ⟨t, ht⟩ := isPrefixOf_exists h
    rw [ht]
    rfl
  · obtain ⟨t, ht⟩ := isPrefixOf_exists h
    rw [ht]
    rfl

/-- Core of claim C1: with an absolute, parseable http(s) base and a
parseable (or already http(s)-prefixed) href, resolution yields an
absolute URL. -/
theorem resolveFeedURL_abs {href base : String}
    (hb : startsWithHTTP base = true)
    (hbp : ∃ b, urlParse base.data = .ok b)
    (hh : startsWithHTTP href = true ∨ ∃ u, urlParse href.data = .ok u) :
    hasScheme (ResolveFeedURL href base) = true := by
  unfold ResolveFeedURL
  by_cases hfast : startsWithHTTP href = true
  · rw [if_pos hfast]
    exact startsWithHTTP_hasScheme hfast
  · rw [if_neg hfast]
    obtain ⟨b, hbq⟩ := hbp
    rcases hh with hh | ⟨u, hu⟩
    · exact absurd hh hfast
    rw [hbq, hu]
    apply urlString_hasScheme
    rw [resolveReference_scheme]
    have hbv : ValidScheme b.scheme := by
      rcases urlParse_scheme_valid hbq with h0 | h0
      · exfalso
        rcases urlParse_http_scheme hb hbq with hs | hs <;> rw [h0] at hs <;> simp at hs
      · exact h0
    by_cases hus : u.scheme = []
    · rw [if_pos hus]; exact hbv
    · rw [if_neg hus]
      rcases urlParse_scheme_valid hu with h0 | h0
      · exact absurd h0 hus
      · exact h0

/-- A classified candidate carries the resolved href as its URL. -/
theorem classifyLink_some_url {url : String} {e : LinkElem} {f : Feed}
    (h : classifyLink url e = some f) : f.URL = ResolveFeedURL e.href url := by
  unfold classifyLink at h
  repeat' (first | split at h | dsimp only at h)
  all_goals first
    | (cases h; rfl)
    | simp at h

/-- A probe acceptance carries the probed URL as its URL field. -/
theorem checkFeedURL_ok_url {url : String} {head get : Except GoError HTTPResponse} {f : Feed}
    (h : checkFeedURL url head get = .ok f) : f.URL = url := by
  unfold checkFeedURL validateFeedContent at h
  repeat' (first | split at h | dsimp only at h)
  all_goals first
    | (cases h; rfl)
    | simp at h

/-! ## Claim C1 -/

/-- C1 (amended).  Every produced feed URL is absolute provided the base
URL is an absolute http(s) URL that parses, and (for the classifier) each
matched href either parses as a URL reference or already carries an http(s)
prefix; with a relative or unparseable base, or an unparseable href,
resolution degrades to best effort and a relative URL can be emitted
(see the counterexample). -/
theorem C1_absolute_urls_amended :
    (∀ (links : List LinkElem) (base : String),
      startsWithHTTP base = true →
      (∃ b, urlParse base.data = .ok b) →
      (∀ e ∈ links, startsWithHTTP e.href = true ∨ ∃ u, urlParse e.href.data = .ok u) →
      ∀ f ∈ ExtractFeedLinks links base, hasScheme f.URL = true)
    ∧
    (∀ (net : ProbeNet) (base : String) (mc : Int) (feeds : List Feed),
      startsWithHTTP base = true →
      ScanCommonFeedPaths net base mc = .ok feeds →
      ∀ f ∈ feeds, hasScheme f.URL = true) := by
  constructor
  · intro links base hb hbp hhrefs f hf
    unfold ExtractFeedLinks at hf
    rw [List.mem_filterMap] at hf
    obtain ⟨e, he, hce⟩ := hf
    rw [classifyLink_some_url hce]
    exact resolveFeedURL_abs hb hbp (hhrefs e he)
  · intro net base mc feeds hb hscan f hf
    unfold ScanCommonFeedPaths at hscan
    dsimp only at hscan
    split at hscan
    · exact absurd hscan (by simp)
    · rename_i b hbq
      cases hscan
      rw [List.mem_filterMap] at hf
      obtain ⟨path, _, hpf⟩ := hf
      split at hpf
      · rename_i feed hck
        cases hpf
        rw [checkFeedURL_ok_url hck]
        have hbv : ValidScheme b.scheme := by
          rcases urlParse_scheme_valid hbq with h0 | h0
          · exfalso
            rcases urlParse_http_scheme hb hbq with hs | hs <;> rw [h0] at hs <;> simp at hs
          · exact h0
        unfold hasScheme
        have : (String.mk (b.scheme ++ "://".data ++ b.host ++ path.data)).data =
            b.scheme ++ ':' :: ('/' :: '/' :: (b.host ++ path.data)) := by
          simp [List.append_assoc]
        rw [this]
        exact hasSchemeL_of_valid hbv _
      · exact absurd hpf (by simp)

/-- C1 witness: a classifier candidate resolved against an absolute https
base, and a probe candidate on an absolute https origin, are absolute. -/
theorem C1_absolute_urls_witness :
    hasScheme (Feed.URL ⟨"https://example.com/feed.xml", "T", "rss"⟩) = true
    ∧ hasScheme (Feed.URL ⟨"https://example.com/feed", "", "rss"⟩) = true :=
  ⟨C1_absolute_urls_amended.1
      [⟨"/feed.xml", "T", "alternate", "application/rss+xml"⟩] "https://example.com"
      (by decide) ⟨_, rfl⟩
      (by
        intro e he
        simp only [List.mem_singleton] at he
        subst he
        exact Or.inr ⟨_, rfl⟩)
      ⟨"https://example.com/feed.xml", "T", "rss"⟩ (by decide),
   C1_absolute_urls_amended.2
      (fun _ => (.ok ⟨200, "text/xml", ""⟩, .error (.errorString "unused")))
      "https://example.com" 3 _ (by decide) rfl
      ⟨"https://example.com/feed", "", "rss"⟩ (by decide)⟩

/-- C1 counterexample: with the (relative) empty base URL, the classifier
emits the candidate URL "/feed" — a relative reference — so the unamended
invariant that every emitted URL is absolute fails. -/
theorem C1_counterexample :
    ExtractFeedLinks [⟨"/feed", "", "alternate", "application/rss+xml"⟩] "" =
      [⟨"/feed", "", "rss"⟩]
    ∧ hasScheme "/feed" = false :=
  ⟨by decide, by decide⟩
